import Mathlib

/-!
Verification of the incremental layout core of the typst document compiler.

The development shallowly embeds the relevant source functions:

* `Model.typeset` / `Model.typesetAux` — the fixed-point driver loop from
  `src/model/mod.rs` (`typeset`).  The per-pass layout engine
  (`library.items.layout`), the introspector constructor
  (`Introspector::new`), the validity check (`Introspector::valid`) and the
  fresh per-pass `StabilityProvider` / `Constraint` values are universally
  quantified parameters, so every theorem holds for arbitrary
  implementations of those collaborators.  The mutable tracer/vm state is
  threaded explicitly as a state value of type `St`.
* `Library.measure` — the measure entry point from
  `library/src/layout/measure.rs`.
* `Library.OutlineNode.show` / `Library.OutlineNode.prepare` — the outline
  realization logic from `library/src/meta/outline.rs`.
* `Render.render` / `Render.renderElems` — the raster export entry points
  from `src/export/render.rs`, with the external tiny-skia drawing
  primitives kept as abstract operations of a `Render.RenderEnv`.

Machine floating point (`f32`/`f64` lengths and scale factors) is idealized
over `ℚ`; infinite lengths are represented explicitly by `Library.Abs.inf`.
-/

namespace Model

/-- A layouted document: an ordered sequence of pages (frames), as produced
by one pass of the layout engine (`Document { pages }`). -/
structure Document (Page : Type) where
  pages : List Page

section Typeset

variable {Page St Prov Constr Intro Err : Type}

variable (layout : St → Prov → Intro → Constr → Except Err (Document Page × Constr × St))

variable (newProvider : Prov)

variable (newConstraint : Constr)

variable (introspectorNew : List Page → Intro)

variable (valid : Intro → Constr → Bool)

/-- The attempt loop of `typeset` (src/model/mod.rs, lines 44-68).  Each
iteration runs one full layout pass with a fresh provider (`newProvider`,
modelling `StabilityProvider::new()`) and a fresh constraint
(`newConstraint`, modelling `Constraint::new()`) against the current
introspector, rebuilds the introspector from the produced document's pages,
and stops as soon as `iter >= 5` or the rebuilt introspector validates the
accumulated constraint.  Layout failure (`?`) propagates as an error. -/
def typesetAux (st : St) (introspector : Intro) (iter : Nat) :
    Except Err (Document Page × St) :=
  match layout st newProvider introspector newConstraint with
  | Except.error e => Except.error e
  | Except.ok (document, constraint, st2) =>
    let introspector2 := introspectorNew document.pages
    if 5 ≤ iter + 1 || valid introspector2 constraint then
      Except.ok (document, st2)
    else
      typesetAux st2 introspector2 (iter + 1)
termination_by 5 - iter
decreasing_by
  simp only [Bool.or_eq_true, decide_eq_true_eq, not_or] at *
  omega

/-- The `typeset` entry point (src/model/mod.rs, lines 30-71): starts the
attempt loop at `iter = 0` with an introspector built from an empty page
list (`Introspector::new(&[])`). -/
def typeset (st : St) : Except Err (Document Page × St) :=
  typesetAux layout newProvider newConstraint introspectorNew valid st
    (introspectorNew []) 0

/-- Instrumentation record for one iteration of the attempt loop: the
provider, constraint and introspector the pass was invoked with, together
with the pass's result. -/
structure AttemptRecord (Page St Prov Constr Intro Err : Type) where
  provider : Prov
  constraint : Constr
  introspector : Intro
  result : Except Err (Document Page × Constr × St)

/-- Instrumented attempt loop: identical control flow to `typesetAux`, but
recording, for every executed iteration, the inputs it ran with and the
result it produced. -/
def typesetTraceAux (st : St) (introspector : Intro) (iter : Nat) :
    List (AttemptRecord Page St Prov Constr Intro Err) :=
  match h : layout st newProvider introspector newConstraint with
  | Except.error e =>
    [⟨newProvider, newConstraint, introspector, Except.error e⟩]
  | Except.ok (document, constraint, st2) =>
    let introspector2 := introspectorNew document.pages
    let record : AttemptRecord Page St Prov Constr Intro Err :=
      ⟨newProvider, newConstraint, introspector,
        Except.ok (document, constraint, st2)⟩
    if 5 ≤ iter + 1 || valid introspector2 constraint then
      [record]
    else
      record :: typesetTraceAux st2 introspector2 (iter + 1)
termination_by 5 - iter
decreasing_by
  simp only [Bool.or_eq_true, decide_eq_true_eq, not_or] at *
  omega

/-- The iteration trace of a full `typeset` run. -/
def typesetTrace (st : St) :
    List (AttemptRecord Page St Prov Constr Intro Err) :=
  typesetTraceAux layout newProvider newConstraint introspectorNew valid st
    (introspectorNew []) 0

/-- Every record in the list used the fresh provider and fresh constraint. -/
def recordsFresh :
    List (AttemptRecord Page St Prov Constr Intro Err) → Prop
  | [] => True
  | r :: rest =>
    (r.provider = newProvider ∧ r.constraint = newConstraint) ∧
      recordsFresh rest

/-- The introspectors threaded through a trace: the first iteration uses the
`expected` introspector, and each later iteration uses the introspector
rebuilt from the pages of the document produced by the immediately
preceding iteration; after a failing pass the trace ends. -/
def introChain :
    Intro → List (AttemptRecord Page St Prov Constr Intro Err) → Prop
  | _, [] => True
  | expected, r :: rest =>
    r.introspector = expected ∧
      (match r.result with
       | Except.ok (document, _, _) =>
         introChain (introspectorNew document.pages) rest
       | Except.error _ => rest = [])

end Typeset

end Model

section ModelLemmas

variable {Page St Prov Constr Intro Err : Type}

variable (layout : St → Prov → Intro → Constr →
  Except Err (Model.Document Page × Constr × St))

variable (newProvider : Prov)

variable (newConstraint : Constr)

variable (introspectorNew : List Page → Intro)

variable (valid : Intro → Constr → Bool)

theorem Model.typesetTraceAux_length_le (n : Nat) :
    ∀ (iter : Nat) (st : St) (introspector : Intro), 5 - iter ≤ n →
      (Model.typesetTraceAux layout newProvider newConstraint introspectorNew
          valid st introspector iter).length ≤ max 1 (5 - iter) := by
  induction n with
  | zero =>
    intro iter st introspector hle
    rw [Model.typesetTraceAux]
    split
    · simp
    · dsimp only
      split
      · simp
      · rename_i document constraint st2 heq hcond
        exfalso
        simp only [Bool.or_eq_true, decide_eq_true_eq, not_or] at hcond
        omega
  | succ n ih =>
    intro iter st introspector hle
    rw [Model.typesetTraceAux]
    split
    · simp
    · dsimp only
      split
      · simp
      · rename_i document constraint st2 heq hcond
        simp only [Bool.or_eq_true, decide_eq_true_eq, not_or] at hcond
        have hiter : iter + 1 < 5 := by omega
        have h2 := ih (iter + 1) st2 (introspectorNew document.pages) (by omega)
        simp only [List.length_cons]
        omega

theorem Model.typesetTraceAux_fresh_chain :
    ∀ (n iter : Nat) (st : St) (introspector : Intro), 5 - iter ≤ n →
      Model.recordsFresh newProvider newConstraint
        (Model.typesetTraceAux layout newProvider newConstraint
          introspectorNew valid st introspector iter) ∧
      Model.introChain introspectorNew introspector
        (Model.typesetTraceAux layout newProvider newConstraint
          introspectorNew valid st introspector iter) := by
  intro n
  induction n with
  | zero =>
    intro iter st introspector hle
    rw [Model.typesetTraceAux]
    split
    · simp [Model.recordsFresh, Model.introChain]
    · dsimp only
      split
      · simp [Model.recordsFresh, Model.introChain]
      · rename_i document constraint st2 heq hcond
        exfalso
        simp only [Bool.or_eq_true, decide_eq_true_eq, not_or] at hcond
        omega
  | succ n ih =>
    intro iter st introspector hle
    rw [Model.typesetTraceAux]
    split
    · simp [Model.recordsFresh, Model.introChain]
    · dsimp only
      split
      · simp [Model.recordsFresh, Model.introChain]
      · rename_i document constraint st2 heq hcond
        simp only [Bool.or_eq_true, decide_eq_true_eq, not_or] at hcond
        have h2 := ih (iter + 1) st2 (introspectorNew document.pages) (by omega)
        exact ⟨⟨⟨rfl, rfl⟩, h2.1⟩, rfl, h2.2⟩

end ModelLemmas

/-- C1: for every layout engine, introspector construction, validity check
and initial state, the attempt loop inside `typeset` executes its body at
most 5 times — in particular also when the validity check never succeeds
(e.g. a self-referential document whose introspections never stabilize). -/
theorem typeset_terminates_within_five_attempts
    {Page St Prov Constr Intro Err : Type}
    (layout : St → Prov → Intro → Constr →
      Except Err (Model.Document Page × Constr × St))
    (newProvider : Prov) (newConstraint : Constr)
    (introspectorNew : List Page → Intro)
    (valid : Intro → Constr → Bool) (st : St) :
    (Model.typesetTrace layout newProvider newConstraint introspectorNew
      valid st).length ≤ 5 := by
  have h := Model.typesetTraceAux_length_le layout newProvider newConstraint
    introspectorNew valid 5 0 st (introspectorNew []) (by omega)
  simpa [Model.typesetTrace] using h

/-- C4: every iteration of the attempt loop runs with the freshly created
provider and freshly created constraint; the first attempt's introspector
is built from the empty page list, and every later attempt's introspector
is built from the pages of the document produced by the immediately
preceding attempt. -/
theorem typeset_fresh_state_and_introspector_chain
    {Page St Prov Constr Intro Err : Type}
    (layout : St → Prov → Intro → Constr →
      Except Err (Model.Document Page × Constr × St))
    (newProvider : Prov) (newConstraint : Constr)
    (introspectorNew : List Page → Intro)
    (valid : Intro → Constr → Bool) (st : St) :
    Model.recordsFresh newProvider newConstraint
      (Model.typesetTrace layout newProvider newConstraint introspectorNew
        valid st) ∧
    Model.introChain introspectorNew (introspectorNew [])
      (Model.typesetTrace layout newProvider newConstraint introspectorNew
        valid st) := by
  have h := Model.typesetTraceAux_fresh_chain layout newProvider newConstraint
    introspectorNew valid 5 0 st (introspectorNew []) (by omega)
  simpa [Model.typesetTrace] using h

/-- C2: on every attempt before the fifth, when the layout pass succeeds,
`typeset` returns the candidate document exactly when the introspector
rebuilt from the candidate's pages validates the accumulated constraint;
otherwise it runs another full pass against the rebuilt introspector. -/
theorem typeset_returns_candidate_iff_valid
    {Page St Prov Constr Intro Err : Type}
    (layout : St → Prov → Intro → Constr →
      Except Err (Model.Document Page × Constr × St))
    (newProvider : Prov) (newConstraint : Constr)
    (introspectorNew : List Page → Intro)
    (valid : Intro → Constr → Bool)
    (st st2 : St) (introspector : Intro) (iter : Nat)
    (document : Model.Document Page) (constraint : Constr)
    (hlay : layout st newProvider introspector newConstraint =
      Except.ok (document, constraint, st2))
    (hiter : iter + 1 < 5) :
    Model.typesetAux layout newProvider newConstraint introspectorNew valid
        st introspector iter =
      (if valid (introspectorNew document.pages) constraint then
        Except.ok (document, st2)
      else
        Model.typesetAux layout newProvider newConstraint introspectorNew
          valid st2 (introspectorNew document.pages) (iter + 1)) := by
  rw [Model.typesetAux]
  rw [hlay]
  dsimp only
  have h5 : (decide (5 ≤ iter + 1)) = false := by
    simp only [decide_eq_false_iff_not]
    omega
  rw [h5]
  simp only [Bool.false_or]

/-- Concrete collaborators for exercising the driver theorems: a layout
engine that records the pass number in the produced page and never fails,
and a validity check that never succeeds. -/
def cLayout : Nat → Nat → List Nat → Nat →
    Except Unit (Model.Document Nat × Nat × Nat) :=
  fun st _ _ c => Except.ok (⟨[st]⟩, c, st + 1)

/-- Introspector constructor for the concrete driver instances: the
introspector is the page list itself. -/
def cIntroNew : List Nat → List Nat := fun pages => pages

/-- A validity check that never succeeds (a never-stabilizing document). -/
def cNeverValid : List Nat → Nat → Bool := fun _ _ => false

theorem typeset_returns_candidate_iff_valid_witness :
    Model.typesetAux cLayout 0 0 cIntroNew cNeverValid 0 [] 0 =
      (if cNeverValid (cIntroNew [0]) 0 then
        Except.ok (⟨[0]⟩, 1)
      else
        Model.typesetAux cLayout 0 0 cIntroNew cNeverValid 1 (cIntroNew [0]) 1) :=
  typeset_returns_candidate_iff_valid cLayout 0 0 cIntroNew cNeverValid
    0 1 [] 0 ⟨[0]⟩ 0 rfl (by decide)

/-- C3: when the fifth attempt completes (the pass succeeds with
`iter + 1 ≥ 5`) without the compatibility check succeeding, `typeset`
still returns the candidate document of that last attempt as a successful
result; exhaustion of the attempt cap never produces an error. -/
theorem typeset_exhaustion_returns_ok
    {Page St Prov Constr Intro Err : Type}
    (layout : St → Prov → Intro → Constr →
      Except Err (Model.Document Page × Constr × St))
    (newProvider : Prov) (newConstraint : Constr)
    (introspectorNew : List Page → Intro)
    (valid : Intro → Constr → Bool)
    (st st2 : St) (introspector : Intro) (iter : Nat)
    (document : Model.Document Page) (constraint : Constr)
    (hlay : layout st newProvider introspector newConstraint =
      Except.ok (document, constraint, st2))
    (hiter : 5 ≤ iter + 1)
    (hinvalid : valid (introspectorNew document.pages) constraint = false) :
    Model.typesetAux layout newProvider newConstraint introspectorNew valid
        st introspector iter = Except.ok (document, st2) := by
  rw [Model.typesetAux]
  rw [hlay]
  dsimp only
  have h5 : (decide (5 ≤ iter + 1)) = true := by
    simp only [decide_eq_true_eq]
    omega
  rw [h5]
  simp

theorem typeset_exhaustion_returns_ok_witness :
    Model.typesetAux cLayout 0 0 cIntroNew cNeverValid 4 [0, 1, 2, 3] 4 =
      Except.ok (⟨[4]⟩, 5) :=
  typeset_exhaustion_returns_ok cLayout 0 0 cIntroNew cNeverValid
    4 5 [0, 1, 2, 3] 4 ⟨[4]⟩ 0 rfl (by decide) rfl

namespace Library

/-- An absolute length, idealized over ℚ, with the infinite length
`Abs::inf()` as an explicit value. -/
inductive Abs where
  | inf
  | fin (value : ℚ)
deriving DecidableEq

/-- A pair of values, one per axis (`Axes { x, y }`). -/
structure Axes (α : Type) where
  x : α
  y : α
deriving DecidableEq

/-- `Axes::splat`: the same value on both axes. -/
def Axes.splat {α : Type} (v : α) : Axes α :=
  ⟨v, v⟩

/-- A point in layout space (lengths idealized over ℚ). -/
structure Point where
  x : ℚ
  y : ℚ
deriving DecidableEq

/-- `Point::splat`. -/
def Point.splat (v : ℚ) : Point :=
  ⟨v, v⟩

/-- Componentwise subtraction, for `loc.pos -= Point::splat(..)`. -/
def Point.sub (p q : Point) : Point :=
  ⟨p.x - q.x, p.y - q.y⟩

/-- A resolved location of layouted content: the page it landed on and its
position there (the fields of `Location` read by the outline code). -/
structure Location where
  page : Nat
  pos : Point
deriving DecidableEq

/-- Spacing amounts; the outline code only uses fractional spacing
(`Spacing::Fractional(Fr::one())`). -/
inductive Spacing where
  | fractional (amount : ℚ)
deriving DecidableEq

/-- The subset of the `Value` sum type exercised by the embedded code. -/
inductive Value where
  | none
  | auto
  | bool (b : Bool)
  | int (i : Int)
  | str (s : String)
  | length (l : Abs)
deriving DecidableEq

/-- Smart values: either `auto` or an explicit value. -/
inductive Smart (α : Type) where
  | auto
  | custom (v : α)

/-- Text languages distinguished by the outline title fallback
(`Lang::GERMAN` vs `Lang::ENGLISH | _`). -/
inductive Lang where
  | english
  | german
  | other
deriving DecidableEq

/-- Style properties set via `.styled(..)` in the outline code:
`HeadingNode::NUMBERING` and `HeadingNode::OUTLINED`. -/
inductive StyleProp where
  | headingNumbering (v : Value)
  | headingOutlined (b : Bool)

mutual

/-- Content nodes, restricted to the constructors produced by the embedded
library code (`TextNode`, `SpaceNode`, `LinebreakNode`, `HideNode`,
`RepeatNode`, `HNode`, `HeadingNode`, styled/linked wrappers, sequences and
`BlockNode`). -/
inductive Content where
  | empty
  | text (s : String)
  | space
  | linebreak (justify : Bool)
  | hide (body : Content)
  | repeatNode (body : Content)
  | h (amount : Spacing) (weak : Bool)
  | heading (title : Content) (level : Nat)
  | styled (body : Content) (prop : StyleProp)
  | linked (body : Content) (dest : Destination)
  | sequence (children : List Content)
  | block (body : Content)

/-- Link destinations (`Destination::Internal`). -/
inductive Destination where
  | internal (loc : Location)

end

/-- Modelled from the spec (the `Content` concatenation used by
`numbering + heading.title` lives in model code that is not under `src/`):
adding two pieces of content forms their sequence. -/
def Content.add (a b : Content) : Content :=
  Content.sequence [a, b]

/-- Modelled from the spec (the `Regions` type and `Regions::one` live in
geometry code that is not under `src/`): a single layout region with an
available size per axis and a flag per axis saying whether the produced
frame expands to the region's full size. -/
structure Regions where
  size : Axes Abs
  expand : Axes Bool
deriving DecidableEq

/-- `Regions::one(size, expand)`: exactly one region. -/
def Regions.one (size : Axes Abs) (expand : Axes Bool) : Regions :=
  ⟨size, expand⟩

/-- A layouted frame, of which the measure entry point only inspects the
size. -/
structure Frame where
  size : Axes Abs

/-- The `measure` entry point (library/src/layout/measure.rs, lines 38-49):
lay the content out in a single unbounded, non-expanding region via the
node's Measure capability (`content.measure(vm, styles, pod)`, passed in
here as the abstract `measureCap` since its implementation is not under
`src/`), convert the resulting fragment into a frame, discard everything
but the frame's size, and return the dictionary
`{ width, height }` (modelled as an ordered association list). -/
def measure {Styles Chain Fragment Err : Type}
    (styleChainNew : Styles → Chain)
    (measureCap : Content → Chain → Regions → Except Err Fragment)
    (intoFrame : Fragment → Frame)
    (content : Content) (styles : Styles) :
    Except Err (List (String × Value)) :=
  let pod := Regions.one (Axes.splat Abs.inf) (Axes.splat false)
  let chain := styleChainNew styles
  match measureCap content chain pod with
  | Except.error e => Except.error e
  | Except.ok fragment =>
    let frame := intoFrame fragment
    Except.ok [("width", Value.length frame.size.x),
      ("height", Value.length frame.size.y)]

end Library

/-- C5: `measure` lays the content out in exactly one region that is
infinite on both axes and expands on neither axis, discards the resulting
frame, and returns a dictionary whose only entries are "width" and
"height", equal to the frame's size components.  The Measure capability is
universally quantified and the hypothesis pins its value only at the
single unbounded non-expanding pod, so the conclusion can only hold
because `measure` queries exactly that region. -/
theorem measure_single_unbounded_region_size_dict
    {Styles Chain Fragment Err : Type}
    (styleChainNew : Styles → Chain)
    (measureCap : Library.Content → Chain → Library.Regions →
      Except Err Fragment)
    (intoFrame : Fragment → Library.Frame)
    (content : Library.Content) (styles : Styles) (fragment : Fragment)
    (hcap : measureCap content (styleChainNew styles)
        (Library.Regions.one (Library.Axes.splat Library.Abs.inf)
          (Library.Axes.splat false)) = Except.ok fragment) :
    (Library.Regions.one (Library.Axes.splat Library.Abs.inf)
        (Library.Axes.splat false)).size =
      ⟨Library.Abs.inf, Library.Abs.inf⟩ ∧
    (Library.Regions.one (Library.Axes.splat Library.Abs.inf)
        (Library.Axes.splat false)).expand = ⟨false, false⟩ ∧
    Library.measure styleChainNew measureCap intoFrame content styles =
      Except.ok [("width", Library.Value.length (intoFrame fragment).size.x),
        ("height", Library.Value.length (intoFrame fragment).size.y)] := by
  refine ⟨rfl, rfl, ?_⟩
  unfold Library.measure
  dsimp only
  rw [hcap]

/-- A concrete Measure capability for the witness: every content measures
to a 3 x 4 frame. -/
def cMeasureCap : Library.Content → Unit → Library.Regions →
    Except Unit Library.Frame :=
  fun _ _ _ => Except.ok ⟨⟨Library.Abs.fin 3, Library.Abs.fin 4⟩⟩

theorem measure_single_unbounded_region_size_dict_witness :
    (Library.Regions.one (Library.Axes.splat Library.Abs.inf)
        (Library.Axes.splat false)).size =
      ⟨Library.Abs.inf, Library.Abs.inf⟩ ∧
    (Library.Regions.one (Library.Axes.splat Library.Abs.inf)
        (Library.Axes.splat false)).expand = ⟨false, false⟩ ∧
    Library.measure (fun (_ : Unit) => ()) cMeasureCap (fun f => f)
        Library.Content.empty () =
      Except.ok [("width", Library.Value.length (Library.Abs.fin 3)),
        ("height", Library.Value.length (Library.Abs.fin 4))] :=
  measure_single_unbounded_region_size_dict (fun (_ : Unit) => ())
    cMeasureCap (fun f => f) Library.Content.empty ()
    ⟨⟨Library.Abs.fin 3, Library.Abs.fin 4⟩⟩ rfl

namespace Library

/-- The introspection bookkeeping visible to the enclosing pass: the working
introspector, the constraint accumulator and the stability provider (the
state `Vt` carries through realization). -/
structure Vt (Intro Constr Prov : Type) where
  introspector : Intro
  constraint : Constr
  provider : Prov
deriving DecidableEq

/-- Modelled from the spec (the implementation of `Content::measure` is not
under `src/`; spec §4.1/§5: Measure "must not have side effects visible
outside the call — in particular it must not register persistent Locations
that would affect the enclosing document's stability" and "Measure calls
are side-effect-free with respect to the Stability Provider and
Constraint"): measuring is a pure what-if computation `sem` of the content,
chain and region, returning the pass state unchanged. -/
def Content.measure {Intro Constr Prov Chain Fragment Err : Type}
    (sem : Content → Chain → Regions → Except Err Fragment)
    (vt : Vt Intro Constr Prov) (content : Content) (chain : Chain)
    (pod : Regions) :
    Except Err Fragment × Vt Intro Constr Prov :=
  (sem content chain pod, vt)

/-- The measure entry point with the pass state threaded explicitly through
the `Content::measure` call (the state-passing rendering of
library/src/layout/measure.rs, lines 38-49). -/
def measureTracked {Intro Constr Prov Styles Chain Fragment Err : Type}
    (sem : Content → Chain → Regions → Except Err Fragment)
    (styleChainNew : Styles → Chain)
    (intoFrame : Fragment → Frame)
    (content : Content) (styles : Styles)
    (vt : Vt Intro Constr Prov) :
    Except Err (List (String × Value)) × Vt Intro Constr Prov :=
  let pod := Regions.one (Axes.splat Abs.inf) (Axes.splat false)
  let chain := styleChainNew styles
  match Content.measure sem vt content chain pod with
  | (Except.error e, vt2) => (Except.error e, vt2)
  | (Except.ok fragment, vt2) =>
    let frame := intoFrame fragment
    (Except.ok [("width", Value.length frame.size.x),
      ("height", Value.length frame.size.y)], vt2)

end Library

/-- C6: the measure entry point leaves the introspector, constraint and
provider of the enclosing pass untouched, and invoking it twice on the
same `(content, styles)` (the second invocation starting from the state
the first one left behind) returns equal width/height dictionaries. -/
theorem measure_pure_and_deterministic
    {Intro Constr Prov Styles Chain Fragment Err : Type}
    (sem : Library.Content → Chain → Library.Regions → Except Err Fragment)
    (styleChainNew : Styles → Chain)
    (intoFrame : Fragment → Library.Frame)
    (content : Library.Content) (styles : Styles)
    (vt : Library.Vt Intro Constr Prov) :
    (Library.measureTracked sem styleChainNew intoFrame content styles
        vt).2 = vt ∧
    (Library.measureTracked sem styleChainNew intoFrame content styles
        (Library.measureTracked sem styleChainNew intoFrame content styles
          vt).2).1 =
      (Library.measureTracked sem styleChainNew intoFrame content styles
        vt).1 := by
  unfold Library.measureTracked Library.Content.measure
  dsimp only
  cases hsem : sem content (styleChainNew styles)
      (Library.Regions.one (Library.Axes.splat Library.Abs.inf)
        (Library.Axes.splat false)) <;>
    simp [hsem]

namespace Library

/-- One result of `vt.locate(Selector::node::<HeadingNode>())`: the located
heading node with the fields the outline code reads (`"outlined"`,
`"numbers"`, `"loc"`) and its `HeadingNode` data (`title`, `level`). -/
structure LocatedHeading where
  outlined : Value
  numbers : Value
  loc : Location
  title : Content
  level : Nat

/-- The style properties resolved by `OutlineNode::show` via
`styles.get(..)`: `TITLE`, `DEPTH`, `INDENT`, `FILL` and the text
language. -/
structure OutlineStyles where
  title : Option (Smart Content)
  depth : Option Nat
  indent : Bool
  fill : Option Content
  lang : Lang

/-- `while xs.last() satisfies p { xs.pop() }` on a vector used as a stack:
drop the longest suffix whose elements satisfy `p`. -/
def popWhileLast {α : Type} (p : α → Bool) (xs : List α) : List α :=
  (xs.reverse.dropWhile p).reverse

/-- The outline title body: the custom title content, or the
language-dependent default text for an `auto` title. -/
def outlineTitleBody (styles : OutlineStyles) (t : Smart Content) : Content :=
  match t with
  | Smart.custom c => c
  | Smart.auto =>
    Content.text (match styles.lang with
      | Lang.german => "Inhaltsverzeichnis"
      | _ => "Contents")

/-- The title heading pushed by `OutlineNode::show`:
`HeadingNode { title: body, level: 1 }` styled with
`HeadingNode::NUMBERING = None` and `HeadingNode::OUTLINED = false`. -/
def outlineTitleContent (styles : OutlineStyles) (t : Smart Content) :
    Content :=
  Content.styled
    (Content.styled (Content.heading (outlineTitleBody styles t) 1)
      (StyleProp.headingNumbering Value.none))
    (StyleProp.headingOutlined false)

/-- The title portion of the outline sequence (outline.rs, lines 109-123). -/
def titleSeq (styles : OutlineStyles) : List Content :=
  match styles.title with
  | Option.none => []
  | Option.some t => [outlineTitleContent styles t]

/-- The run of content emitted for one listed heading (outline.rs, lines
147-195): the shifted link destination, the optional hidden ancestor
numberings realizing the indent, the numbering plus section title linked to
the heading, the filler, and the linked page number with a line break. -/
def entryFor (styles : OutlineStyles) (ancestors : List LocatedHeading)
    (node : LocatedHeading) : List Content :=
  let loc : Location :=
    { node.loc with pos := node.loc.pos.sub (Point.splat 10) }
  let indentPart : List Content :=
    if styles.indent then
      let text := String.join (ancestors.filterMap (fun a =>
        match a.numbers with
        | Value.str numbering => Option.some (numbering ++ " ")
        | _ => Option.none))
      if text != "" then
        [Content.hide (Content.text text), Content.space]
      else []
    else []
  let numbering : Content :=
    match node.numbers with
    | Value.str numbering => Content.text (numbering ++ " ")
    | _ => Content.empty
  let start := Content.add numbering node.title
  let fillPart : List Content :=
    match styles.fill with
    | Option.some filler =>
      [Content.space, Content.repeatNode filler, Content.space]
    | Option.none => [Content.h (Spacing.fractional 1) false]
  let pageEnd := Content.text (toString loc.page)
  indentPart ++ [Content.linked start (Destination.internal loc)] ++
    fillPart ++
    [Content.linked pageEnd (Destination.internal loc),
      Content.linebreak false]

/-- One iteration of the entry loop of `OutlineNode::show` (outline.rs,
lines 129-198) over the state `(seq, ancestors)`: skip the node unless its
`"outlined"` field is `true`; skip it when the resolved depth is below its
level; otherwise pop stale ancestors, emit the entry and push the node as
an ancestor. -/
def outlineStep (styles : OutlineStyles)
    (state : List Content × List LocatedHeading) (node : LocatedHeading) :
    List Content × List LocatedHeading :=
  if node.outlined != Value.bool true then state
  else if (match styles.depth with
           | Option.some d => decide (d < node.level)
           | Option.none => false) then state
  else
    let ancestors :=
      popWhileLast (fun last => decide (node.level ≤ last.level)) state.2
    (state.1 ++ entryFor styles ancestors node, ancestors ++ [node])

/-- `OutlineNode::show` (outline.rs, lines 101-201): the optional title
heading followed by the entries of all listed headings, wrapped in a
`BlockNode`. -/
def OutlineNode.show (styles : OutlineStyles)
    (located : List LocatedHeading) : Content :=
  Content.block (Content.sequence
    (located.foldl (outlineStep styles) (titleSeq styles, [])).1)

/-- `OutlineNode::prepare` (outline.rs, lines 86-99): the list of located
headings whose `"outlined"` field equals `true`, in document order (each is
then packed into the node's `"headings"` array field). -/
def OutlineNode.prepare (located : List LocatedHeading) :
    List LocatedHeading :=
  located.filter (fun node => node.outlined == Value.bool true)

/-- Modelled from the spec (style resolution during realization lives in
model code that is not under `src/`; spec §3: lookup of a property walks
the chain from innermost outward, returning the first match or the
property's static default): the `OUTLINED` value a realized heading
reports, taking the innermost `styled` wrapper setting it, defaulting to
`true`. -/
def outlinedStyle : Content → Option Bool
  | Content.styled body (StyleProp.headingOutlined b) =>
    match outlinedStyle body with
    | Option.some inner => Option.some inner
    | Option.none => Option.some b
  | Content.styled body _ => outlinedStyle body
  | _ => Option.none

/-- The `"outlined"` field value of a realized heading (see
`outlinedStyle`). -/
def resolvedOutlined (c : Content) : Value :=
  Value.bool ((outlinedStyle c).getD true)

/-- Modelled from the spec (see `outlinedStyle`): the `NUMBERING` value a
realized heading reports, taking the innermost `styled` wrapper setting it,
defaulting to `none`. -/
def numberingStyle : Content → Option Value
  | Content.styled body (StyleProp.headingNumbering v) =>
    match numberingStyle body with
    | Option.some inner => Option.some inner
    | Option.none => Option.some v
  | Content.styled body _ => numberingStyle body
  | _ => Option.none

/-- The resolved `NUMBERING` property of a realized heading (see
`numberingStyle`). -/
def resolvedNumbering (c : Content) : Value :=
  (numberingStyle c).getD Value.none

end Library

section OutlineLemmas

theorem List.foldl_filter_of_skip {α β : Type} (f : β → α → β)
    (p : α → Bool) (hskip : ∀ (s : β) (a : α), p a = false → f s a = s) :
    ∀ (l : List α) (init : β), l.foldl f init = (l.filter p).foldl f init := by
  intro l
  induction l with
  | nil => intro init; rfl
  | cons a l ih =>
    intro init
    by_cases hp : p a = true
    · simp only [List.filter, hp, List.foldl]
      exact ih (f init a)
    · rw [Bool.not_eq_true] at hp
      simp only [List.filter, hp, List.foldl, hskip init a hp]
      exact ih init

theorem Library.outlineStep_skip_not_outlined (styles : Library.OutlineStyles)
    (s : List Library.Content × List Library.LocatedHeading)
    (node : Library.LocatedHeading)
    (h : (node.outlined == Library.Value.bool true) = false) :
    Library.outlineStep styles s node = s := by
  unfold Library.outlineStep
  simp [bne, h]

end OutlineLemmas

/-- C7: with the DEPTH style resolved to 1 and the heading query returning
outlined headings of levels 1, 2, 1 in document order, `OutlineNode::show`
produces exactly the entries of the two level-1 headings, in that order;
the level-2 heading, whose level exceeds the resolved depth, is skipped. -/
theorem outline_depth_one_keeps_level_one_headings
    (styles : Library.OutlineStyles)
    (h1 h2 h3 : Library.LocatedHeading)
    (hdepth : styles.depth = Option.some 1)
    (hl1 : h1.level = 1) (hl2 : h2.level = 2) (hl3 : h3.level = 1)
    (ho1 : h1.outlined = Library.Value.bool true)
    (ho2 : h2.outlined = Library.Value.bool true)
    (ho3 : h3.outlined = Library.Value.bool true) :
    Library.OutlineNode.show styles [h1, h2, h3] =
      Library.Content.block (Library.Content.sequence
        (Library.titleSeq styles ++ Library.entryFor styles [] h1 ++
          Library.entryFor styles [] h3)) := by
  unfold Library.OutlineNode.show
  simp only [List.foldl]
  rw [Library.outlineStep, Library.outlineStep, Library.outlineStep]
  simp only [ho1, ho2, ho3, hl1, hl2, hl3, hdepth, bne_self_eq_false,
    Bool.false_eq_true, if_false, Library.popWhileLast]
  norm_num [Library.popWhileLast, List.dropWhile, hl1]

/-- Concrete outline styles for the witnesses: auto title, max depth 1,
no indent, dot filler, English. -/
def cOutlineStyles : Library.OutlineStyles :=
  ⟨Option.some Library.Smart.auto, Option.some 1, false,
    Option.some (Library.Content.text "."), Library.Lang.english⟩

/-- A concrete outlined heading for the witnesses. -/
def cHeading (level : Nat) (title : String) : Library.LocatedHeading :=
  ⟨Library.Value.bool true, Library.Value.none, ⟨1, ⟨0, 0⟩⟩,
    Library.Content.text title, level⟩

theorem outline_depth_one_keeps_level_one_headings_witness :
    Library.OutlineNode.show cOutlineStyles
        [cHeading 1 "Intro", cHeading 2 "Sub", cHeading 1 "Work"] =
      Library.Content.block (Library.Content.sequence
        (Library.titleSeq cOutlineStyles ++
          Library.entryFor cOutlineStyles [] (cHeading 1 "Intro") ++
          Library.entryFor cOutlineStyles [] (cHeading 1 "Work"))) :=
  outline_depth_one_keeps_level_one_headings cOutlineStyles
    (cHeading 1 "Intro") (cHeading 2 "Sub") (cHeading 1 "Work")
    rfl rfl rfl rfl rfl rfl rfl

/-- C8: when `OutlineNode::show` emits a title heading it is exactly the
heading styled with `NUMBERING = none` and `OUTLINED = false`; that
heading's resolved NUMBERING is `none` and its resolved "outlined" field is
`false`; `OutlineNode::prepare` only keeps headings whose "outlined" field
is `true`; and the entry loop of `show` ignores every located heading whose
"outlined" field is not `true` — so the outline's own title heading never
appears among the headings the outline lists. -/
theorem outline_title_heading_never_listed
    (styles : Library.OutlineStyles) (t : Library.Smart Library.Content)
    (located : List Library.LocatedHeading)
    (n : Library.LocatedHeading) :
    (styles.title = Option.some t →
      Library.titleSeq styles = [Library.outlineTitleContent styles t]) ∧
    Library.resolvedNumbering (Library.outlineTitleContent styles t) =
      Library.Value.none ∧
    Library.resolvedOutlined (Library.outlineTitleContent styles t) =
      Library.Value.bool false ∧
    (n ∈ Library.OutlineNode.prepare located →
      n.outlined = Library.Value.bool true) ∧
    Library.OutlineNode.show styles located =
      Library.OutlineNode.show styles
        (located.filter
          (fun m => m.outlined == Library.Value.bool true)) := by
  refine ⟨?_, rfl, rfl, ?_, ?_⟩
  · intro h
    simp [Library.titleSeq, h]
  · intro hmem
    simp only [Library.OutlineNode.prepare, List.mem_filter,
      beq_iff_eq] at hmem
    exact hmem.2
  · unfold Library.OutlineNode.show
    rw [List.foldl_filter_of_skip (Library.outlineStep styles)
      (fun m => m.outlined == Library.Value.bool true)
      (fun s a ha => Library.outlineStep_skip_not_outlined styles s a ha)
      located (Library.titleSeq styles, [])]

theorem outline_title_heading_never_listed_witness :
    Library.titleSeq cOutlineStyles =
      [Library.outlineTitleContent cOutlineStyles Library.Smart.auto] ∧
    Library.resolvedNumbering
        (Library.outlineTitleContent cOutlineStyles Library.Smart.auto) =
      Library.Value.none ∧
    Library.resolvedOutlined
        (Library.outlineTitleContent cOutlineStyles Library.Smart.auto) =
      Library.Value.bool false ∧
    (cHeading 1 "Intro").outlined = Library.Value.bool true ∧
    Library.OutlineNode.show cOutlineStyles [cHeading 1 "Intro"] =
      Library.OutlineNode.show cOutlineStyles
        ([cHeading 1 "Intro"].filter
          (fun m => m.outlined == Library.Value.bool true)) := by
  have h := outline_title_heading_never_listed cOutlineStyles
    Library.Smart.auto [cHeading 1 "Intro"] (cHeading 1 "Intro")
  refine ⟨h.1 rfl, h.2.1, h.2.2.1, ?_, h.2.2.2.2⟩
  refine h.2.2.2.1 ?_
  simp [Library.OutlineNode.prepare, cHeading]

namespace Render

/-- A 2D size in points, idealized over ℚ. -/
structure Size where
  x : ℚ
  y : ℚ

/-- A 2D position in points, idealized over ℚ. -/
structure RPoint where
  x : ℚ
  y : ℚ

/-- The elements of a frame (`Element`): groups carry their transform,
clipping flag and nested frame (inlined as size plus positioned child
elements); text runs, shapes and the image/link payloads that the
renderer does not inspect structurally are opaque data. -/
inductive Element (τ : Type) where
  | group (transform : τ) (clips : Bool) (frameSize : Size)
      (frameElements : List (RPoint × Element τ))
  | text (data : Nat)
  | shape (data : Nat)
  | image (id : Nat) (size : Size)
  | link (dest : Nat) (size : Size)

/-- A frame: a size and positioned elements. -/
structure Frame (τ : Type) where
  size : Size
  elements : List (RPoint × Element τ)

/-- Outcome of building the clip mask for a clipping group
(render.rs, lines 79-103): the rect path could not be built (render with
the old mask), the clip was empty (`result.is_none()`: return without
rendering the group), or a new mask was produced. -/
inductive ClipOutcome (Mask : Type) where
  | noPath
  | abort
  | newMask (m : Mask)

/-- The external tiny-skia / font / image drawing primitives used by
render.rs, kept abstract: pixmap construction (`Pixmap::new`, `None` on a
rejected size), white fill, transform algebra, clip-mask construction, and
the per-element renderers (`render_text` threads the mutable context
through its glyph cache; `render_shape` and `render_image` do not mutate
it). -/
structure RenderEnv (Canvas Mask Ctx τ : Type) where
  newPixmap : Nat → Nat → Option Canvas
  fillWhite : Canvas → Canvas
  fromScale : ℚ → ℚ → τ
  preTranslate : τ → ℚ → ℚ → τ
  preConcat : τ → τ → τ
  clip : Canvas → τ → Option Mask → Size → ClipOutcome Mask
  renderText : Canvas → τ → Option Mask → Ctx → Nat → Canvas × Ctx
  renderShape : Canvas → τ → Option Mask → Nat → Canvas
  renderImage : Canvas → τ → Option Mask → Ctx → Nat → Size → Canvas

/-- `render_frame` (render.rs, lines 37-65) together with `render_group`
(lines 68-107), over a frame's element list: each element is rendered at
its pre-translated transform; `Element::Link` does nothing; groups
recurse into their nested frame with the group transform pre-concatenated
and the clip mask adjusted per `ClipOutcome`. -/
def renderElems {Canvas Mask Ctx τ : Type}
    (env : RenderEnv Canvas Mask Ctx τ) (canvas : Canvas) (ts : τ)
    (mask : Option Mask) (ctx : Ctx) :
    List (RPoint × Element τ) → Canvas × Ctx
  | [] => (canvas, ctx)
  | (pos, element) :: rest =>
    let ts2 := env.preTranslate ts pos.x pos.y
    let step : Canvas × Ctx :=
      match element with
      | Element.group transform clips frameSize frameElements =>
        let ts3 := env.preConcat ts2 transform
        if clips then
          match env.clip canvas ts3 mask frameSize with
          | ClipOutcome.abort => (canvas, ctx)
          | ClipOutcome.noPath =>
            renderElems env canvas ts3 mask ctx frameElements
          | ClipOutcome.newMask m =>
            renderElems env canvas ts3 (Option.some m) ctx frameElements
        else
          renderElems env canvas ts3 mask ctx frameElements
      | Element.text data => env.renderText canvas ts2 mask ctx data
      | Element.shape data => (env.renderShape canvas ts2 mask data, ctx)
      | Element.image id size =>
        (env.renderImage canvas ts2 mask ctx id size, ctx)
      | Element.link _ _ => (canvas, ctx)
    renderElems env step.1 ts mask step.2 rest

/-- Rounding of a rational to an integer, half away from zero
(`f32::round`). -/
def roundAway (q : ℚ) : ℤ :=
  if 0 ≤ q then ⌊q + 1 / 2⌋ else -⌊-q + 1 / 2⌋

/-- The pixel extent of one axis (render.rs, lines 24-25):
`(pixel_per_pt * dim).round().max(1.0) as u32`. -/
def pxDim (pixelPerPt dim : ℚ) : ℕ :=
  (max 1 (roundAway (pixelPerPt * dim))).toNat

/-- `render` (render.rs, lines 23-34): compute the pixel size, allocate the
pixmap (`Pixmap::new(pxw, pxh).unwrap()` — the `unwrap` panic is modelled
as `Option.none`), fill it white and render the frame's elements over it.
-/
def render {Canvas Mask Ctx τ : Type} (env : RenderEnv Canvas Mask Ctx τ)
    (ctx : Ctx) (frame : Frame τ) (pixelPerPt : ℚ) :
    Option (Canvas × Ctx) :=
  let pxw := pxDim pixelPerPt frame.size.x
  let pxh := pxDim pixelPerPt frame.size.y
  match env.newPixmap pxw pxh with
  | Option.none => Option.none
  | Option.some canvas =>
    let canvas2 := env.fillWhite canvas
    let ts := env.fromScale pixelPerPt pixelPerPt
    Option.some (renderElems env canvas2 ts Option.none ctx frame.elements)

/-- Whether an element is a link. -/
def Element.isLink {τ : Type} : Element τ → Bool
  | Element.link _ _ => true
  | _ => false

end Render

theorem Render.renderElems_all_links {Canvas Mask Ctx τ : Type}
    (env : Render.RenderEnv Canvas Mask Ctx τ) (ts : τ)
    (mask : Option Mask) :
    ∀ (elems : List (Render.RPoint × Render.Element τ))
      (canvas : Canvas) (ctx : Ctx),
      (∀ pe ∈ elems, (Render.Element.isLink pe.2) = true) →
      Render.renderElems env canvas ts mask ctx elems = (canvas, ctx) := by
  intro elems
  induction elems with
  | nil =>
    intro canvas ctx _
    rw [Render.renderElems]
  | cons pe rest ih =>
    intro canvas ctx h
    obtain ⟨pos, element⟩ := pe
    have hl := h (pos, element) (List.mem_cons_self _ _)
    cases element with
    | group transform clips frameSize frameElements =>
      simp [Render.Element.isLink] at hl
    | text data => simp [Render.Element.isLink] at hl
    | shape data => simp [Render.Element.isLink] at hl
    | image id size => simp [Render.Element.isLink] at hl
    | link dest size =>
      rw [Render.renderElems]
      exact ih canvas ctx (fun q hq => h q (List.mem_cons_of_mem _ hq))

/-- C9: rendering ignores `Element::Link` entirely — a frame all of whose
elements are links renders to exactly the same pixel buffer (the
white-filled canvas) and cache state as the empty frame of the same size.
-/
theorem render_link_elements_leave_canvas_unchanged
    {Canvas Mask Ctx τ : Type}
    (env : Render.RenderEnv Canvas Mask Ctx τ) (ctx : Ctx)
    (frame : Render.Frame τ) (pixelPerPt : ℚ)
    (h : ∀ pe ∈ frame.elements, (Render.Element.isLink pe.2) = true) :
    Render.render env ctx frame pixelPerPt =
      Render.render env ctx ⟨frame.size, []⟩ pixelPerPt := by
  unfold Render.render
  dsimp only
  cases hnp : env.newPixmap (Render.pxDim pixelPerPt frame.size.x)
      (Render.pxDim pixelPerPt frame.size.y) with
  | none => rfl
  | some canvas =>
    dsimp only
    rw [Render.renderElems_all_links env
      (env.fromScale pixelPerPt pixelPerPt) Option.none frame.elements
      (env.fillWhite canvas) ctx h]
    rw [Render.renderElems]

/-- A concrete rendering environment for the witnesses, with trivial
canvas, mask, context and transform types. -/
def cRenderEnv : Render.RenderEnv Nat Nat Nat Nat :=
  ⟨fun _ _ => Option.some 0, fun c => c, fun _ _ => 0, fun t _ _ => t,
    fun a _ => a, fun _ _ _ _ => Render.ClipOutcome.noPath,
    fun c _ _ x _ => (c, x), fun c _ _ _ => c, fun c _ _ _ _ _ => c⟩

/-- A concrete frame whose only element is a link. -/
def cLinkFrame : Render.Frame Nat :=
  ⟨⟨1, 1⟩, [(⟨0, 0⟩, Render.Element.link 0 ⟨1, 1⟩)]⟩

theorem render_link_elements_leave_canvas_unchanged_witness :
    Render.render cRenderEnv 0 cLinkFrame 1 =
      Render.render cRenderEnv 0 ⟨cLinkFrame.size, []⟩ 1 :=
  render_link_elements_leave_canvas_unchanged cRenderEnv 0 cLinkFrame 1
    (by
      intro pe hpe
      simp only [cLinkFrame] at hpe
      rw [List.mem_singleton] at hpe
      subst hpe
      rfl)

/-- C10: for every frame (zero-sized frames included) and every
pixel-per-point factor, both pixel extents `round(pixel_per_pt * dim)`
are clamped below at 1, so as long as the pixmap constructor accepts every
positive size (the tiny-skia contract: `Pixmap::new` only rejects empty
sizes), `render` always obtains its canvas and never hits the
`unwrap` panic. -/
theorem render_pixmap_at_least_one_by_one
    {Canvas Mask Ctx τ : Type}
    (env : Render.RenderEnv Canvas Mask Ctx τ) (ctx : Ctx)
    (frame : Render.Frame τ) (pixelPerPt : ℚ)
    (hnew : ∀ w h : Nat, 1 ≤ w → 1 ≤ h →
      (env.newPixmap w h).isSome = true) :
    1 ≤ Render.pxDim pixelPerPt frame.size.x ∧
    1 ≤ Render.pxDim pixelPerPt frame.size.y ∧
    (Render.render env ctx frame pixelPerPt).isSome = true := by
  have hx : 1 ≤ Render.pxDim pixelPerPt frame.size.x := by
    unfold Render.pxDim
    have h1 : (1 : ℤ) ≤ max 1 (Render.roundAway (pixelPerPt * frame.size.x)) :=
      le_max_left _ _
    omega
  have hy : 1 ≤ Render.pxDim pixelPerPt frame.size.y := by
    unfold Render.pxDim
    have h1 : (1 : ℤ) ≤ max 1 (Render.roundAway (pixelPerPt * frame.size.y)) :=
      le_max_left _ _
    omega
  refine ⟨hx, hy, ?_⟩
  unfold Render.render
  dsimp only
  have hsome := hnew _ _ hx hy
  cases hnp : env.newPixmap (Render.pxDim pixelPerPt frame.size.x)
      (Render.pxDim pixelPerPt frame.size.y) with
  | none => rw [hnp] at hsome; simp at hsome
  | some canvas => rfl

theorem render_pixmap_at_least_one_by_one_witness :
    1 ≤ Render.pxDim 1 (Render.Frame.size (τ := Nat) ⟨⟨0, 0⟩, []⟩).x ∧
    1 ≤ Render.pxDim 1 (Render.Frame.size (τ := Nat) ⟨⟨0, 0⟩, []⟩).y ∧
    (Render.render cRenderEnv 0 (⟨⟨0, 0⟩, []⟩ : Render.Frame Nat) 1).isSome =
      true :=
  render_pixmap_at_least_one_by_one cRenderEnv 0 (⟨⟨0, 0⟩, []⟩ : Render.Frame Nat) 1
    (fun _ _ _ _ => rfl)
